import Mathlib

/-!
# Tektronix AWG5014 waveform/sequence container codec and sequencer model

A shallow embedding of the core described by the repository's design
documentation: the `.awg` container codec (encode a triple of waveform
records, sequence table and settings mapping into a byte stream, and parse
it back), waveform and sequence-table validation, the sequencer state
model (run/stop/position, lazy mode), and the per-waveform upload path.

The repository's own sources consist of a driver-usage notebook; the
driver functions it calls (`make_and_save_awg_file`, `parse_awg_file`,
`send_waveform_to_list`, the `set_sqel_*` family, `run`/`stop`/
`sequence_pos`) live outside the shipped tree, so the definitions below
are modelled from the specification's description of those functions.
Sample values are modelled as rationals: the specification leaves the
on-the-wire numeric representation open and demands only that whatever
representation is chosen round-trips exactly.
-/

namespace AWG

/-- Validation failures of waveform records and sequence tables.
Modelled from the spec: error kinds of `validate` (§4.1) and `build`
(§4.2); the underlying driver code is not in the shipped tree. -/
inductive ValidationError where
  | outOfRange
  | invalidMarkerValue
  | lengthMismatch
  | invalidTarget
  deriving DecidableEq, Repr

/-- One channel's analog samples plus its two digital marker tracks.
Modelled from the spec: the Waveform Record data model (§3). -/
structure WaveformRecord where
  samples : List ℚ
  marker1 : List Nat
  marker2 : List Nat
  deriving DecidableEq, Repr

/-- Modelled from the spec: `validate(samples, marker1, marker2)` (§4.1).
Fails with `outOfRange` if any sample lies outside `[-1, 1]`, with
`invalidMarkerValue` if any marker value is not `0` or `1`, and with
`lengthMismatch` if the three arrays differ in length; otherwise packs
the three arrays into an immutable record.  Pure: no side effects. -/
def validateWaveform (samples : List ℚ) (marker1 marker2 : List Nat) :
    Except ValidationError WaveformRecord :=
  if ∃ s ∈ samples, s < -1 ∨ 1 < s then .error .outOfRange
  else if ∃ v ∈ marker1 ++ marker2, v ≠ 0 ∧ v ≠ 1 then .error .invalidMarkerValue
  else if marker1.length = samples.length ∧ marker2.length = samples.length then
    .ok ⟨samples, marker1, marker2⟩
  else .error .lengthMismatch

/-- A raw per-element sequencing tuple: repeat count, trigger-wait flag,
goto target and event-jump target.  Modelled from the spec: the four
parallel per-position sequencing arrays (§6) zipped per element. -/
structure RawElem where
  repeatCount : Nat
  triggerWait : Nat
  gotoTarget : Nat
  eventJumpTarget : Nat
  deriving DecidableEq, Repr

/-- A target field is either the none-sentinel `0` or an index in `[1, n]`. -/
def targetOK (n t : Nat) : Prop := t = 0 ∨ (1 ≤ t ∧ t ≤ n)

instance (n t : Nat) : Decidable (targetOK n t) := by
  unfold targetOK
  infer_instance

/-- A validated sequence table: an ordered list of N sequence elements. -/
structure SequenceTable where
  elems : List RawElem
  deriving DecidableEq, Repr

/-- Modelled from the spec: `build(elements)` (§4.2).  Validates that every
element's `goto_target` and `event_jump_target` is either `0` or within
`[1, N]`; fails with `invalidTarget` otherwise.  A `repeat_count` of `0`
(infinite repetition) is accepted, not an error. -/
def buildSequenceTable (elements : List RawElem) :
    Except ValidationError SequenceTable :=
  if ∀ el ∈ elements,
      targetOK elements.length el.gotoTarget ∧
      targetOK elements.length el.eventJumpTarget then
    .ok ⟨elements⟩
  else .error .invalidTarget

/-! ## Container codec

The encoder input is the exact call-signature shape of
`make_and_save_awg_file` demonstrated in the notebook: per-channel lists
of waveform arrays (outer index channel, inner index sequence position),
parallel marker arrays, four parallel per-position sequencing arrays and
a channel-number list.  The settings mapping is threaded separately. -/

/-- The encoder's call-signature-shaped input:
`(waveforms, m1s, m2s, nreps, trig_waits, goto_states, jump_tos, channels)`. -/
structure AWGInput where
  waveforms : List (List (List ℚ))
  m1s : List (List (List Nat))
  m2s : List (List (List Nat))
  nreps : List Nat
  trig_waits : List Nat
  goto_states : List Nat
  jump_tos : List Nat
  channels : List Nat
  deriving DecidableEq, Repr

/-- The opaque settings mapping: string keys to scalar values. -/
abbrev Settings := List (String × ℚ)

/-- The waveform content attached to one (channel, element) position:
samples plus the two marker tracks. -/
abbrev WFContent := List ℚ × List Nat × List Nat

/-- Number of sequence elements N. -/
def AWGInput.numElems (i : AWGInput) : Nat := i.nreps.length

/-- Number of channels C. -/
def AWGInput.numChans (i : AWGInput) : Nat := i.channels.length

/-- The waveform content the caller supplied for channel slot `c`,
element slot `e` (both 0-based). -/
def content (i : AWGInput) (c e : Nat) : WFContent :=
  ((i.waveforms.getD c []).getD e [],
   (i.m1s.getD c []).getD e [],
   (i.m2s.getD c []).getD e [])

/-- Every (channel, element) content in channel-major order. -/
def allContents (i : AWGInput) : List WFContent :=
  (List.range i.numChans).flatMap fun c =>
    (List.range i.numElems).map fun e => content i c e

/-- The deduplicated waveform block: each distinct waveform content is
stored exactly once, in first-occurrence order.  Modelled from the spec:
encode must deduplicate identical waveform content referenced by multiple
elements/channels into a single stored record plus reference table (§4.3). -/
def stored (i : AWGInput) : List WFContent := (allContents i).dedup

/-- Index of the first occurrence of `a` in a list (list length if absent). -/
def idxOf {α : Type} [DecidableEq α] (a : α) : List α → Nat
  | [] => 0
  | b :: t => if b = a then 0 else idxOf a t + 1

/-- The reference (index into the stored waveform block) held by the
sequence element at (channel slot `c`, element slot `e`). -/
def wfref (i : AWGInput) (c e : Nat) : Nat := idxOf (content i c e) (stored i)

/-- One serialized sequence-table record: the five per-element fields
(repeat count, trigger-wait, goto target, event-jump target, and the
per-channel waveform assignment as stored-block references). -/
structure ElemRec where
  nrep : Nat
  trig : Nat
  goto : Nat
  jump : Nat
  refs : List Nat
  deriving DecidableEq, Repr

/-- The serialized record of the element at slot `e`: its four scalar
sequencing fields and its per-channel references into the stored block. -/
def mkElemRec (i : AWGInput) (e : Nat) : ElemRec :=
  { nrep := i.nreps.getD e 0
    trig := i.trig_waits.getD e 0
    goto := i.goto_states.getD e 0
    jump := i.jump_tos.getD e 0
    refs := (List.range i.numChans).map fun c => wfref i c e }

/-- The sequence-table block of the container: one record per element,
holding non-owning references into the stored waveform block. -/
def elemRecs (i : AWGInput) : List ElemRec :=
  (List.range i.numElems).map (mkElemRec i)

/-- Atomic units of the serialized container stream.  Modelled from the
spec: the byte-level widths and endianness are left open (§9, open
question), so the stream is modelled at the granularity of its scalar
fields. -/
inductive Tok where
  | nat (n : Nat)
  | rat (q : ℚ)
  | str (s : String)
  deriving DecidableEq, Repr

/-- Serialize a length-prefixed block of `l.length` items via `f`. -/
def encListOf {α : Type} (f : α → List Tok) (l : List α) : List Tok :=
  Tok.nat l.length :: (l.map f).flatten

/-- Serialize a length-prefixed list of naturals. -/
def encNatList : List Nat → List Tok := encListOf fun n => [Tok.nat n]

/-- Serialize a length-prefixed list of rationals. -/
def encRatList : List ℚ → List Tok := encListOf fun q => [Tok.rat q]

/-- Serialize one stored waveform content: samples, marker1, marker2. -/
def encContent (w : WFContent) : List Tok :=
  encRatList w.1 ++ encNatList w.2.1 ++ encNatList w.2.2

/-- Serialize one sequence-table record: the four scalar fields in stable
order followed by the per-channel reference list. -/
def encElem (r : ElemRec) : List Tok :=
  Tok.nat r.nrep :: Tok.nat r.trig :: Tok.nat r.goto :: Tok.nat r.jump :: encNatList r.refs

/-- Serialize one settings entry. -/
def encPair (p : String × ℚ) : List Tok := [Tok.str p.1, Tok.rat p.2]

/-- Modelled from the spec: `encode(records, table, settings) -> bytes`
(§4.3).  Deterministic serialization: channel list, then the sequence
table laid out as one delimited record per element with all five fields
in stable order, then the deduplicated waveform block, then the settings
mapping as a separately delimited block. -/
def encode (i : AWGInput) (settings : Settings) : List Tok :=
  encNatList i.channels ++ encListOf encElem (elemRecs i) ++
    encListOf encContent (stored i) ++ encListOf encPair settings

/-- Parse one leading natural. -/
def pNat : List Tok → Option (Nat × List Tok)
  | Tok.nat n :: ts => some (n, ts)
  | _ => none

/-- Parse one leading rational. -/
def pRat : List Tok → Option (ℚ × List Tok)
  | Tok.rat q :: ts => some (q, ts)
  | _ => none

/-- Parse exactly `n` consecutive items via `p`. -/
def pCount {α : Type} (p : List Tok → Option (α × List Tok)) :
    Nat → List Tok → Option (List α × List Tok)
  | 0, ts => some ([], ts)
  | n + 1, ts => do
    let (a, ts1) ← p ts
    let (l, ts2) ← pCount p n ts1
    some (a :: l, ts2)

/-- Parse a length-prefixed block of items via `p`. -/
def pListOf {α : Type} (p : List Tok → Option (α × List Tok))
    (ts : List Tok) : Option (List α × List Tok) := do
  let (n, ts1) ← pNat ts
  pCount p n ts1

/-- Parse a length-prefixed list of naturals. -/
def pNatList : List Tok → Option (List Nat × List Tok) := pListOf pNat

/-- Parse a length-prefixed list of rationals. -/
def pRatList : List Tok → Option (List ℚ × List Tok) := pListOf pRat

/-- Parse one stored waveform content. -/
def pContent (ts : List Tok) : Option (WFContent × List Tok) := do
  let (s, ts1) ← pRatList ts
  let (m1, ts2) ← pNatList ts1
  let (m2, ts3) ← pNatList ts2
  some ((s, m1, m2), ts3)

/-- Parse one sequence-table record. -/
def pElem : List Tok → Option (ElemRec × List Tok)
  | Tok.nat a :: Tok.nat b :: Tok.nat c :: Tok.nat d :: ts =>
    (pNatList ts).map fun (refs, ts1) =>
      ({ nrep := a, trig := b, goto := c, jump := d, refs := refs }, ts1)
  | _ => none

/-- Parse one settings entry. -/
def pPair : List Tok → Option ((String × ℚ) × List Tok)
  | Tok.str k :: Tok.rat v :: ts => some ((k, v), ts)
  | _ => none

/-- Traverse a list under `Option`, failing if any element fails. -/
def seqOpt {α β : Type} (f : α → Option β) : List α → Option (List β)
  | [] => some []
  | a :: t => do
    let b ← f a
    let r ← seqOpt f t
    some (b :: r)

/-- Modelled from the spec: `decode(bytes)` / `parse_awg_file` (§4.3).
Parses the four container blocks, resolves every sequence element's
per-channel waveform reference against the stored waveform block
(failing on a dangling reference or structural corruption), and
reconstructs the exact call-signature-shaped tuple the encoder accepted
together with the settings mapping. -/
def decode (ts : List Tok) : Option (AWGInput × Settings) := do
  let (channels, ts1) ← pNatList ts
  let (elems, ts2) ← pListOf pElem ts1
  let (wfs, ts3) ← pListOf pContent ts2
  let (settings, ts4) ← pListOf pPair ts3
  if ts4 = [] then
    let rows ← seqOpt
      (fun c => seqOpt (fun el => (el.refs.get? c).bind fun r => wfs.get? r) elems)
      (List.range channels.length)
    some
      ({ waveforms := rows.map fun row => row.map fun w => w.1
         m1s := rows.map fun row => row.map fun w => w.2.1
         m2s := rows.map fun row => row.map fun w => w.2.2
         nreps := elems.map fun el => el.nrep
         trig_waits := elems.map fun el => el.trig
         goto_states := elems.map fun el => el.goto
         jump_tos := elems.map fun el => el.jump
         channels := channels }, settings)
  else none

/-- Validity of an encoder input: consistent shapes (per §6, construction
inputs), a shared sample length, in-range targets, and every per-position
waveform record passing `validateWaveform`. -/
def ValidInput (i : AWGInput) : Prop :=
  1 ≤ i.numElems ∧ 1 ≤ i.numChans ∧
  i.waveforms.length = i.numChans ∧
  i.m1s.length = i.numChans ∧
  i.m2s.length = i.numChans ∧
  (∀ row ∈ i.waveforms, row.length = i.numElems) ∧
  (∀ row ∈ i.m1s, row.length = i.numElems) ∧
  (∀ row ∈ i.m2s, row.length = i.numElems) ∧
  i.trig_waits.length = i.numElems ∧
  i.goto_states.length = i.numElems ∧
  i.jump_tos.length = i.numElems ∧
  (∀ t ∈ i.goto_states, targetOK i.numElems t) ∧
  (∀ t ∈ i.jump_tos, targetOK i.numElems t) ∧
  (∀ w ∈ allContents i, w.1.length = (content i 0 0).1.length) ∧
  (∀ w ∈ allContents i, (validateWaveform w.1 w.2.1 w.2.2).isOk = true)

instance (i : AWGInput) : Decidable (ValidInput i) := by
  unfold ValidInput
  infer_instance

/-- Zip the four sequencing arrays into raw per-element tuples. -/
def rawElems (i : AWGInput) : List RawElem :=
  (List.range i.numElems).map fun e =>
    { repeatCount := i.nreps.getD e 0
      triggerWait := i.trig_waits.getD e 0
      gotoTarget := i.goto_states.getD e 0
      eventJumpTarget := i.jump_tos.getD e 0 }

/-- Commands the core issues against the external Device Session (§6). -/
inductive Cmd where
  | runDev
  | stopDev
  | setPos (i : Nat)
  | sendWaveform (name : String) (record : WaveformRecord)
  | setLoopInf (index : Nat)
  deriving DecidableEq, Repr

/-- Validate every stored waveform record, first failure wins. -/
def validateRecords : List WFContent → Except ValidationError Unit
  | [] => .ok ()
  | w :: t =>
    match validateWaveform w.1 w.2.1 w.2.2 with
    | .error e => .error e
    | .ok _ => validateRecords t

/-- Modelled from the spec: `make_and_save_awg_file` — the container-file
path.  Validates every per-position waveform record with the same
`validateWaveform` gate as the direct-upload path, validates the sequence
table, and only then emits the serialized container; on any validation
failure no container is produced (§4.3, §7). -/
def make_and_save_awg_file (i : AWGInput) (settings : Settings) :
    Except ValidationError (List Tok) :=
  match validateRecords (allContents i) with
  | .error e => .error e
  | .ok _ =>
    match buildSequenceTable (rawElems i) with
    | .error e => .error e
    | .ok _ => .ok (encode i settings)

/-- Modelled from the spec: `send_waveform_to_list` — the direct
per-waveform upload path.  Runs the same `validateWaveform` gate and, on
success, yields the transfer command for the Device Session; on failure
nothing is transferred (§4.1, §6). -/
def send_waveform_to_list (samples : List ℚ) (m1 m2 : List Nat)
    (name : String) : Except ValidationError Cmd :=
  match validateWaveform samples m1 m2 with
  | .error e => .error e
  | .ok r => .ok (Cmd.sendWaveform name r)

/-! ## Sequencer Model -/

/-- The two logical run states of the device (§3, §4.4). -/
inductive RunState where
  | stopped
  | running
  deriving DecidableEq, Repr

/-- One sequence element of the Sequencer Model: per-channel waveform
assignment plus the four sequencing fields (§3, Sequence Element). -/
structure SeqElem where
  waveformRefs : List String
  repeatCount : Nat
  triggerWait : Nat
  gotoTarget : Nat
  eventJumpTarget : Nat
  deriving DecidableEq, Repr, Inhabited

/-- The failure of `set_position` on an out-of-range index (§4.4). -/
inductive SeqError where
  | invalidPosition
  deriving DecidableEq, Repr

/-- The Sequencer Model's state: the element table, the commanded
position, and the run state (§3, sequencer runtime state). -/
structure SeqModel where
  elems : List SeqElem
  position : Nat
  runState : RunState
  deriving DecidableEq, Repr

/-- Result of one Sequencer Model operation: the new model state, the
commands sent to the Device Session, and the error, if any. -/
structure StepResult where
  model : SeqModel
  sent : List Cmd
  err : Option SeqError
  deriving DecidableEq, Repr

/-- Modelled from the spec: `set_position(i)` / `sequence_pos.set` (§4.4).
With `i` in `[1, N]` the commanded position becomes `i` and the position
command is issued to the Device Session (an override of the table's
goto/event wiring, immediate while Running, deferred until `run()` while
Stopped); outside `[1, N]` it fails with `invalidPosition`, sends
nothing, and leaves the model unchanged. -/
def set_position (m : SeqModel) (i : Nat) : StepResult :=
  if 1 ≤ i ∧ i ≤ m.elems.length then
    { model := { m with position := i }, sent := [Cmd.setPos i], err := none }
  else
    { model := m, sent := [], err := some SeqError.invalidPosition }

/-- Modelled from the spec: `run()` (§4.4): Stopped → Running, no-op if
already Running; cannot fail. -/
def run (m : SeqModel) : StepResult :=
  { model := { m with runState := RunState.running }
    sent := [Cmd.runDev], err := none }

/-- Modelled from the spec: `stop()` (§4.4): Running → Stopped, no-op if
already Stopped; cannot fail. -/
def stop (m : SeqModel) : StepResult :=
  { model := { m with runState := RunState.stopped }
    sent := [Cmd.stopDev], err := none }

/-- Modelled from the spec: `enter_lazy_mode()` (§4.4): force every
element's `repeat_count` to `0` (infinite) — a bulk mutation over the
Sequence Table, issued per element as `set_sqel_loopcnt_to_inf`; changes
nothing else and cannot fail. -/
def enter_lazy_mode (m : SeqModel) : StepResult :=
  { model := { m with elems := m.elems.map fun e => { e with repeatCount := 0 } }
    sent := (List.range m.elems.length).map fun k => Cmd.setLoopInf (k + 1)
    err := none }

/-- The element the device is actually playing: the commanded position
while Running, nothing while Stopped. -/
def playing (m : SeqModel) : Option Nat :=
  if m.runState = RunState.running then some m.position else none

/-- Rewire element `k`'s goto target to `f k` and event-jump target to
`g k`, for every `k`: an arbitrary re-wiring of the table's navigation
metadata, used to state that a commanded jump overrides the wiring. -/
def retarget (m : SeqModel) (f g : Nat → Nat) : SeqModel :=
  { m with
    elems := (List.range m.elems.length).map fun k =>
      { m.elems.getD k default with gotoTarget := f k, eventJumpTarget := g k } }

/-! ## Per-waveform upload path: device-side sequencer assembly -/

/-- One per-element configuration command of the upload path
(`set_sqel_waveform`, `set_sqel_loopcnt`, `set_sqel_trigger_wait`,
`set_sqel_goto_target_index`, `set_sqel_event_target_index`). -/
inductive ElemOp where
  | setWaveform (ch : Nat) (name : String)
  | setLoopcnt (n : Nat)
  | setTrigWait (w : Nat)
  | setGoto (t : Nat)
  | setJump (t : Nat)
  deriving DecidableEq, Repr

/-- One operation of the per-waveform upload path against the device's
sequencer. -/
inductive UploadOp where
  | setSeqLength (n : Nat)
  | elemOp (index : Nat) (op : ElemOp)
  | deleteAll
  deriving DecidableEq, Repr

/-- The device-side sequencer state reached by the upload path: the
currently set sequence length and the retained per-element configuration
entries (element index paired with the retained operation). -/
structure DeviceSeqState where
  seqLength : Nat
  populated : List (Nat × ElemOp)
  deriving DecidableEq, Repr

/-- Modelled from the spec: the device retains a per-element operation
only when its index lies within the currently set sequence length
("set the sequence length to the correct number lest not all sequence
elements get uploaded"); shrinking the sequence length discards elements
beyond the new length. -/
def applyUploadOp (s : DeviceSeqState) : UploadOp → DeviceSeqState
  | UploadOp.setSeqLength n =>
    { seqLength := n, populated := s.populated.filter fun p => decide (1 ≤ p.1 ∧ p.1 ≤ n) }
  | UploadOp.elemOp index op =>
    if 1 ≤ index ∧ index ≤ s.seqLength then
      { s with populated := (index, op) :: s.populated }
    else s
  | UploadOp.deleteAll => { s with populated := [] }

/-- The device-side sequencer state after a whole upload-path script,
starting from the freshly cleared device (length 0, nothing retained). -/
def runUpload (ops : List UploadOp) : DeviceSeqState :=
  ops.foldl applyUploadOp { seqLength := 0, populated := [] }

/-- Wrap one (samples, marker1, marker2) triple as a one-channel,
one-element encoder input with trivially valid sequencing fields, so the
container-file path and the direct-upload path can be compared on the
same waveform data. -/
def singleInput (samples : List ℚ) (m1 m2 : List Nat) : AWGInput :=
  { waveforms := [[samples]]
    m1s := [[m1]]
    m2s := [[m2]]
    nreps := [1]
    trig_waits := [0]
    goto_states := [0]
    jump_tos := [0]
    channels := [1] }

/-- The upload-path invariant: every retained per-element configuration
entry addresses an index within `[1, seqLength]`. -/
def DevInv (s : DeviceSeqState) : Prop :=
  ∀ p ∈ s.populated, 1 ≤ p.1 ∧ p.1 ≤ s.seqLength

/-! ## Concrete instances used by the witnesses -/

/-- A small valid encoder input: one channel, two sequence elements with
identical waveform content (so deduplication is exercised), sample
length 2. -/
def sampleInput : AWGInput :=
  { waveforms := [[[mkRat 1 2, mkRat (-1) 2], [mkRat 1 2, mkRat (-1) 2]]]
    m1s := [[[1, 0], [1, 0]]]
    m2s := [[[0, 0], [0, 0]]]
    nreps := [2, 2]
    trig_waits := [0, 0]
    goto_states := [2, 1]
    jump_tos := [0, 0]
    channels := [1] }

/-- `sampleInput` with every repeat count set to `0` (infinite). -/
def zeroRepInput : AWGInput :=
  { sampleInput with nreps := [0, 0] }

/-- A small settings mapping. -/
def sampleSettings : Settings := [("AWG_CLOCK", 1000000)]

/-- A sequence table of length 4 whose first element has
`goto_target = 7`, outside `[1, 4]`. -/
def badTable : List RawElem :=
  [⟨1, 0, 7, 0⟩, ⟨1, 0, 0, 0⟩, ⟨1, 0, 0, 0⟩, ⟨1, 0, 0, 0⟩]

/-- One sequencer-model element. -/
def sampleElem : SeqElem :=
  { waveformRefs := ["wfm000ch1"]
    repeatCount := 2
    triggerWait := 0
    gotoTarget := 2
    eventJumpTarget := 0 }

/-- A running four-element sequencer model. -/
def mRunning : SeqModel :=
  { elems := [sampleElem, sampleElem, sampleElem, sampleElem]
    position := 1
    runState := RunState.running }

/-- A stopped four-element sequencer model. -/
def mStopped : SeqModel :=
  { elems := [sampleElem, sampleElem, sampleElem, sampleElem]
    position := 1
    runState := RunState.stopped }

/-- A small upload-path script: set the sequence length, then configure
element 2. -/
def sampleOps : List UploadOp :=
  [UploadOp.setSeqLength 3, UploadOp.elemOp 2 (ElemOp.setLoopcnt 5)]

/-- An upload-path script that never sets the sequence length. -/
def noLenOps : List UploadOp :=
  [UploadOp.elemOp 1 (ElemOp.setLoopcnt 5), UploadOp.elemOp 2 (ElemOp.setGoto 1)]

/-! ## Parser/serializer inverse lemmas -/

theorem pCount_enc {α : Type} (p : List Tok → Option (α × List Tok))
    (f : α → List Tok) (hp : ∀ a ts, p (f a ++ ts) = some (a, ts)) :
    ∀ (l : List α) (ts : List Tok),
      pCount p l.length ((l.map f).flatten ++ ts) = some (l, ts) := by
  intro l
  induction l with
  | nil => intro ts; simp [pCount]
  | cons a t ih =>
    intro ts
    simp only [List.map_cons, List.flatten_cons, List.length_cons,
      List.append_assoc]
    simp [pCount, hp, ih]

theorem pListOf_enc {α : Type} (p : List Tok → Option (α × List Tok))
    (f : α → List Tok) (hp : ∀ a ts, p (f a ++ ts) = some (a, ts))
    (l : List α) (ts : List Tok) :
    pListOf p (encListOf f l ++ ts) = some (l, ts) := by
  simp [pListOf, encListOf, pNat, pCount_enc p f hp]

theorem pNatList_enc (l : List Nat) (ts : List Tok) :
    pNatList (encNatList l ++ ts) = some (l, ts) :=
  pListOf_enc pNat (fun n => [Tok.nat n]) (fun _ _ => rfl) l ts

theorem pRatList_enc (l : List ℚ) (ts : List Tok) :
    pRatList (encRatList l ++ ts) = some (l, ts) :=
  pListOf_enc pRat (fun q => [Tok.rat q]) (fun _ _ => rfl) l ts

theorem pContent_enc (w : WFContent) (ts : List Tok) :
    pContent (encContent w ++ ts) = some (w, ts) := by
  obtain ⟨s, m1, m2⟩ := w
  simp [pContent, encContent, List.append_assoc, pRatList_enc, pNatList_enc]

theorem pElem_enc (r : ElemRec) (ts : List Tok) :
    pElem (encElem r ++ ts) = some (r, ts) := by
  simp [pElem, encElem, pNatList_enc]

theorem pPair_enc (p : String × ℚ) (ts : List Tok) :
    pPair (encPair p ++ ts) = some (p, ts) := by
  obtain ⟨k, v⟩ := p
  rfl

theorem seqOpt_map {α β : Type} (f : α → Option β) (g : α → β) :
    ∀ (l : List α), (∀ a ∈ l, f a = some (g a)) → seqOpt f l = some (l.map g) := by
  intro l
  induction l with
  | nil => intro _; rfl
  | cons a t ih =>
    intro h
    simp [seqOpt, h a (by simp), ih fun x hx => h x (by simp [hx])]

theorem get?_idxOf {α : Type} [DecidableEq α] (a : α) :
    ∀ {l : List α}, a ∈ l → l.get? (idxOf a l) = some a := by
  intro l
  induction l with
  | nil => intro h; cases h
  | cons b t ih =>
    intro h
    by_cases hb : b = a
    · simp [idxOf, hb]
    · have ht : a ∈ t := by
        rcases List.mem_cons.mp h with h1 | h1
        · exact absurd h1.symm hb
        · exact h1
      simpa [idxOf, hb] using ih ht

theorem map_range_getD {α : Type} (d : α) :
    ∀ (l : List α), (List.range l.length).map (fun k => l.getD k d) = l := by
  intro l
  induction l with
  | nil => rfl
  | cons a t ih =>
    rw [List.length_cons, List.range_succ_eq_map, List.map_cons, List.map_map]
    simp only [Function.comp_def, List.getD_cons_zero, List.getD_cons_succ]
    rw [ih]

theorem map_range_getD2 {α : Type} (d : α) (N : Nat) :
    ∀ (l : List (List α)), (∀ row ∈ l, row.length = N) →
      (List.range l.length).map
        (fun c => (List.range N).map fun e => (l.getD c []).getD e d) = l := by
  intro l
  induction l with
  | nil => intro _; rfl
  | cons r t ih =>
    intro h
    rw [List.length_cons, List.range_succ_eq_map, List.map_cons, List.map_map]
    simp only [Function.comp_def, List.getD_cons_zero, List.getD_cons_succ]
    have hr : (List.range N).map (fun e => r.getD e d) = r := by
      rw [← h r (by simp)]
      exact map_range_getD d r
    rw [hr, ih fun row hrow => h row (by simp [hrow])]

/-! ## Deduplication and reference-resolution lemmas -/

theorem content_mem_allContents (i : AWGInput) {c e : Nat}
    (hc : c < i.numChans) (he : e < i.numElems) :
    content i c e ∈ allContents i := by
  unfold allContents
  exact List.mem_flatMap.mpr
    ⟨c, List.mem_range.mpr hc, List.mem_map.mpr ⟨e, List.mem_range.mpr he, rfl⟩⟩

theorem stored_get_wfref (i : AWGInput) {c e : Nat}
    (hc : c < i.numChans) (he : e < i.numElems) :
    (stored i).get? (wfref i c e) = some (content i c e) := by
  apply get?_idxOf
  rw [stored, List.mem_dedup]
  exact content_mem_allContents i hc he

theorem stored_getD_wfref (i : AWGInput) {c e : Nat}
    (hc : c < i.numChans) (he : e < i.numElems) :
    (stored i).getD (wfref i c e) ([], [], []) = content i c e := by
  rw [List.getD_eq_getD_get?, stored_get_wfref i hc he]
  rfl

theorem mkElemRec_refs_get (i : AWGInput) (e : Nat) {c : Nat}
    (hc : c < i.numChans) :
    (mkElemRec i e).refs.get? c = some (wfref i c e) := by
  simp [mkElemRec, List.get?_eq_getElem?, List.getElem?_map,
    List.getElem?_range hc]

theorem mkElemRec_refs_getD (i : AWGInput) (e : Nat) {c : Nat}
    (hc : c < i.numChans) :
    (mkElemRec i e).refs.getD c 0 = wfref i c e := by
  rw [List.getD_eq_getD_get?, mkElemRec_refs_get i e hc, Option.getD_some]

theorem elemRow_eq (i : AWGInput) {c : Nat} (hc : c < i.numChans) :
    seqOpt (fun el => (el.refs.get? c).bind fun r => (stored i).get? r)
        (elemRecs i)
      = some ((List.range i.numElems).map fun e => content i c e) := by
  have hfa : ∀ el ∈ elemRecs i,
      ((el.refs.get? c).bind fun r => (stored i).get? r)
        = some ((stored i).getD (el.refs.getD c 0) ([], [], [])) := by
    intro el hel
    rw [elemRecs] at hel
    obtain ⟨e, he, rfl⟩ := List.mem_map.mp hel
    have he' := List.mem_range.mp he
    rw [mkElemRec_refs_get i e hc, Option.some_bind, stored_get_wfref i hc he',
      mkElemRec_refs_getD i e hc, stored_getD_wfref i hc he']
  rw [seqOpt_map _ _ (elemRecs i) hfa, elemRecs, List.map_map]
  refine congrArg some (List.map_congr_left fun e he => ?_)
  have he' := List.mem_range.mp he
  simp only [Function.comp_def]
  rw [mkElemRec_refs_getD i e hc, stored_getD_wfref i hc he']

/-! ## Round-trip law -/

/-- The central helper: decoding the serialized container reproduces the
exact encoder input and settings mapping. -/
theorem decode_encode (i : AWGInput) (st : Settings) (hv : ValidInput i) :
    decode (encode i st) = some (i, st) := by
  obtain ⟨hN, hC, hwl, hm1l, hm2l, hwrow, hm1row, hm2row, htl, hgl, hjl,
    -, -, -, -⟩ := hv
  have hpp : pListOf pPair (encListOf encPair st) = some (st, []) := by
    have h := pListOf_enc pPair encPair pPair_enc st []
    rwa [List.append_nil] at h
  have hrows : seqOpt
      (fun c => seqOpt
        (fun el => (el.refs.get? c).bind fun r => (stored i).get? r)
        (elemRecs i))
      (List.range i.channels.length)
      = some ((List.range i.numChans).map fun c =>
          (List.range i.numElems).map fun e => content i c e) := by
    exact seqOpt_map _ _ (List.range i.numChans)
      fun c hcm => elemRow_eq i (List.mem_range.mp hcm)
  simp only [decode, encode, List.append_assoc, pNatList_enc,
    pListOf_enc pElem encElem pElem_enc,
    pListOf_enc pContent encContent pContent_enc, hpp,
    Option.bind_eq_bind, Option.some_bind', hrows, if_pos rfl]
  have hwav : (List.range i.numChans).map (fun c =>
      (List.range i.numElems).map fun e => (i.waveforms.getD c []).getD e [])
        = i.waveforms := by
    rw [← hwl]
    exact map_range_getD2 [] i.numElems i.waveforms hwrow
  have hma : (List.range i.numChans).map (fun c =>
      (List.range i.numElems).map fun e => (i.m1s.getD c []).getD e [])
        = i.m1s := by
    rw [← hm1l]
    exact map_range_getD2 [] i.numElems i.m1s hm1row
  have hmb : (List.range i.numChans).map (fun c =>
      (List.range i.numElems).map fun e => (i.m2s.getD c []).getD e [])
        = i.m2s := by
    rw [← hm2l]
    exact map_range_getD2 [] i.numElems i.m2s hm2row
  have hnr : (elemRecs i).map (fun el => el.nrep) = i.nreps := by
    rw [elemRecs, List.map_map]
    exact map_range_getD 0 i.nreps
  have htw : (elemRecs i).map (fun el => el.trig) = i.trig_waits := by
    rw [elemRecs, List.map_map]
    have h := map_range_getD 0 i.trig_waits
    rwa [htl] at h
  have hgs : (elemRecs i).map (fun el => el.goto) = i.goto_states := by
    rw [elemRecs, List.map_map]
    have h := map_range_getD 0 i.goto_states
    rwa [hgl] at h
  have hjt : (elemRecs i).map (fun el => el.jump) = i.jump_tos := by
    rw [elemRecs, List.map_map]
    have h := map_range_getD 0 i.jump_tos
    rwa [hjl] at h
  rw [if_true]
  simp only [List.map_map, Function.comp_def, content]
  rw [hwav, hma, hmb, hnr, htw, hgs, hjt]

/-! ## Sequence table helper lemmas -/

theorem rawElems_length (i : AWGInput) : (rawElems i).length = i.numElems := by
  simp [rawElems]

theorem buildSequenceTable_of_valid (i : AWGInput) (hv : ValidInput i) :
    buildSequenceTable (rawElems i) = Except.ok ⟨rawElems i⟩ := by
  obtain ⟨-, -, -, -, -, -, -, -, -, hgl, hjl, hgok, hjok, -, -⟩ := hv
  rw [buildSequenceTable, if_pos]
  intro el hel
  rw [rawElems] at hel
  obtain ⟨e, he, rfl⟩ := List.mem_map.mp hel
  have he' := List.mem_range.mp he
  rw [rawElems_length]
  constructor
  · show targetOK i.numElems (i.goto_states.getD e 0)
    have h1 : e < i.goto_states.length := by rw [hgl]; exact he'
    rw [List.getD_eq_getElem _ _ h1]
    exact hgok _ (List.getElem_mem h1)
  · show targetOK i.numElems (i.jump_tos.getD e 0)
    have h1 : e < i.jump_tos.length := by rw [hjl]; exact he'
    rw [List.getD_eq_getElem _ _ h1]
    exact hjok _ (List.getElem_mem h1)

/-! ## Upload-path invariant lemmas -/

theorem devInv_step (s : DeviceSeqState) (op : UploadOp) (h : DevInv s) :
    DevInv (applyUploadOp s op) := by
  cases op with
  | setSeqLength n =>
    intro p hp
    simp only [applyUploadOp] at hp ⊢
    have := List.mem_filter.mp hp
    exact of_decide_eq_true this.2
  | elemOp index eop =>
    intro p hp
    simp only [applyUploadOp] at hp ⊢
    by_cases hcond : 1 ≤ index ∧ index ≤ s.seqLength
    · rw [if_pos hcond] at hp ⊢
      rcases List.mem_cons.mp hp with h1 | h1
      · subst h1; exact hcond
      · exact h p h1
    · rw [if_neg hcond] at hp ⊢
      exact h p hp
  | deleteAll =>
    intro p hp
    simp only [applyUploadOp] at hp
    cases hp

theorem devInv_fold :
    ∀ (ops : List UploadOp) (s : DeviceSeqState), DevInv s →
      DevInv (ops.foldl applyUploadOp s) := by
  intro ops
  induction ops with
  | nil => intro s h; exact h
  | cons op t ih =>
    intro s h
    exact ih (applyUploadOp s op) (devInv_step s op h)

theorem noLen_fold :
    ∀ (ops : List UploadOp) (s : DeviceSeqState),
      s.seqLength = 0 → s.populated = [] →
      (∀ op ∈ ops, ∀ n, op ≠ UploadOp.setSeqLength n) →
      (ops.foldl applyUploadOp s).populated = [] := by
  intro ops
  induction ops with
  | nil => intro s _ hp _; exact hp
  | cons op t ih =>
    intro s hl hp hops
    cases op with
    | setSeqLength n => exact absurd rfl (hops _ (by simp) n)
    | elemOp index eop =>
      refine ih (applyUploadOp s (UploadOp.elemOp index eop)) ?_ ?_
        fun o ho n => hops o (by simp [ho]) n
      · simp only [applyUploadOp]
        rw [if_neg]
        · exact hl
        · rintro ⟨h1, h2⟩
          rw [hl] at h2
          omega
      · simp only [applyUploadOp]
        rw [if_neg]
        · exact hp
        · rintro ⟨h1, h2⟩
          rw [hl] at h2
          omega
    | deleteAll =>
      exact ih _ hl rfl fun o ho n => hops o (by simp [ho]) n

/-! ## Claim theorems -/

/-- C1: for every valid triple (waveform records, sequence table,
settings mapping), decoding the bytes produced by encoding that triple
reproduces exactly the same per-channel, per-position waveform content
(samples and both marker tracks), the same five sequencing fields for
every element, and the same settings mapping, in the exact
call-signature shape the encoder accepted. -/
theorem C1_container_roundtrip (i : AWGInput) (settings : Settings)
    (h : ValidInput i) :
    decode (encode i settings) = some (i, settings) :=
  decode_encode i settings h

theorem C1_container_roundtrip_witness :
    ValidInput sampleInput ∧
      decode (encode sampleInput sampleSettings)
        = some (sampleInput, sampleSettings) :=
  ⟨by decide, C1_container_roundtrip sampleInput sampleSettings (by decide)⟩

/-- C2: waveform-record construction fails with `outOfRange` when any
sample lies outside `[-1, 1]`; with the samples in range it fails with
`invalidMarkerValue` when any marker value is not `0` or `1`; with the
samples and markers in range it fails with `lengthMismatch` when the
three arrays differ in length; and on any failure no record is produced
(the construction is a pure function). -/
theorem C2_validateWaveform_errors (samples : List ℚ) (m1 m2 : List Nat) :
    ((∃ s ∈ samples, s < -1 ∨ 1 < s) →
      validateWaveform samples m1 m2 = Except.error ValidationError.outOfRange) ∧
    ((∀ s ∈ samples, -1 ≤ s ∧ s ≤ 1) → (∃ v ∈ m1 ++ m2, v ≠ 0 ∧ v ≠ 1) →
      validateWaveform samples m1 m2
        = Except.error ValidationError.invalidMarkerValue) ∧
    ((∀ s ∈ samples, -1 ≤ s ∧ s ≤ 1) → (∀ v ∈ m1 ++ m2, v = 0 ∨ v = 1) →
      ¬(m1.length = samples.length ∧ m2.length = samples.length) →
      validateWaveform samples m1 m2
        = Except.error ValidationError.lengthMismatch) ∧
    (∀ e r, validateWaveform samples m1 m2 = Except.error e →
      validateWaveform samples m1 m2 ≠ Except.ok r) := by
  have hns : (∀ s ∈ samples, -1 ≤ s ∧ s ≤ 1) →
      ¬∃ s ∈ samples, s < -1 ∨ 1 < s := by
    rintro hs ⟨s, hsm, hlt⟩
    rcases hlt with h1 | h1
    · exact absurd (hs s hsm).1 (not_le.mpr h1)
    · exact absurd (hs s hsm).2 (not_le.mpr h1)
  refine ⟨?_, ?_, ?_, ?_⟩
  · intro h
    rw [validateWaveform, if_pos h]
  · intro hs hm
    rw [validateWaveform, if_neg (hns hs), if_pos hm]
  · intro hs hm hlen
    have hnm : ¬∃ v ∈ m1 ++ m2, v ≠ 0 ∧ v ≠ 1 := by
      rintro ⟨v, hvm, h0, h1⟩
      rcases hm v hvm with h | h
      · exact h0 h
      · exact h1 h
    rw [validateWaveform, if_neg (hns hs), if_neg hnm, if_neg hlen]
  · intro e r he hok
    rw [he] at hok
    exact Except.noConfusion hok

theorem C2_validateWaveform_errors_witness :
    ((∃ s ∈ [mkRat 3 2], s < -1 ∨ 1 < s) ∧
      validateWaveform [mkRat 3 2] [0] [0]
        = Except.error ValidationError.outOfRange) ∧
    ((∀ s ∈ [(0 : ℚ)], -1 ≤ s ∧ s ≤ 1) ∧ (∃ v ∈ [2] ++ [0], v ≠ 0 ∧ v ≠ 1) ∧
      validateWaveform [(0 : ℚ)] [2] [0]
        = Except.error ValidationError.invalidMarkerValue) ∧
    ((∀ s ∈ [(0 : ℚ)], -1 ≤ s ∧ s ≤ 1) ∧ (∀ v ∈ [0] ++ [0, 0], v = 0 ∨ v = 1) ∧
      ¬([0].length = [(0 : ℚ)].length ∧ [0, 0].length = [(0 : ℚ)].length) ∧
      validateWaveform [(0 : ℚ)] [0] [0, 0]
        = Except.error ValidationError.lengthMismatch) :=
  ⟨⟨by decide, (C2_validateWaveform_errors _ _ _).1 (by decide)⟩,
   ⟨by decide, by decide,
     (C2_validateWaveform_errors _ _ _).2.1 (by decide) (by decide)⟩,
   ⟨by decide, by decide, by decide,
     (C2_validateWaveform_errors _ _ _).2.2.1 (by decide) (by decide) (by decide)⟩⟩

/-- C3: sequence-table construction from N raw element tuples fails with
the target-validation error whenever some element's goto target or
event-jump target is neither the none-sentinel `0` nor an index within
`[1, N]`, and no table is produced. -/
theorem C3_buildSequenceTable_invalidTarget (elements : List RawElem)
    (h : ∃ el ∈ elements, ¬targetOK elements.length el.gotoTarget ∨
      ¬targetOK elements.length el.eventJumpTarget) :
    buildSequenceTable elements = Except.error ValidationError.invalidTarget ∧
      ∀ t, buildSequenceTable elements ≠ Except.ok t := by
  have hn : ¬∀ el ∈ elements,
      targetOK elements.length el.gotoTarget ∧
      targetOK elements.length el.eventJumpTarget := by
    intro hall
    obtain ⟨el, hmem, hbad⟩ := h
    rcases hbad with hb | hb
    · exact hb (hall el hmem).1
    · exact hb (hall el hmem).2
  constructor
  · rw [buildSequenceTable, if_neg hn]
  · intro t ht
    rw [buildSequenceTable, if_neg hn] at ht
    exact Except.noConfusion ht

theorem C3_buildSequenceTable_invalidTarget_witness :
    (∃ el ∈ badTable, ¬targetOK badTable.length el.gotoTarget ∨
      ¬targetOK badTable.length el.eventJumpTarget) ∧
    buildSequenceTable badTable = Except.error ValidationError.invalidTarget :=
  ⟨by decide, (C3_buildSequenceTable_invalidTarget badTable (by decide)).1⟩

/-- C4: a repeat count of `0` (the infinite-repetition marker) is
accepted by sequence-table construction as a valid value, not an error,
and is preserved exactly through an encode-then-decode cycle: for every
valid input whose repeat counts are all `0`, the decoded repeat counts
are all exactly `0`. -/
theorem C4_infinite_repeat_preserved (i : AWGInput) (settings : Settings)
    (hv : ValidInput i) (h0 : ∀ r ∈ i.nreps, r = 0) :
    buildSequenceTable (rawElems i) = Except.ok ⟨rawElems i⟩ ∧
    ∃ out, decode (encode i settings) = some (out, settings) ∧
      out.nreps = i.nreps ∧ ∀ r ∈ out.nreps, r = 0 :=
  ⟨buildSequenceTable_of_valid i hv,
   i, decode_encode i settings hv, rfl, h0⟩

theorem C4_infinite_repeat_preserved_witness :
    ValidInput zeroRepInput ∧ (∀ r ∈ zeroRepInput.nreps, r = 0) ∧
    (buildSequenceTable (rawElems zeroRepInput)
        = Except.ok ⟨rawElems zeroRepInput⟩ ∧
      ∃ out, decode (encode zeroRepInput sampleSettings)
          = some (out, sampleSettings) ∧
        out.nreps = zeroRepInput.nreps ∧ ∀ r ∈ out.nreps, r = 0) :=
  ⟨by decide, by decide,
   C4_infinite_repeat_preserved zeroRepInput sampleSettings
     (by decide) (by decide)⟩

/-- C5: the encoder stores each distinct waveform content exactly once
(the stored block has no duplicate entries), every (channel, element)
position's sequence-table entry holds an in-bounds index reference that
resolves to exactly that position's content, and decoding still
reconstructs the full per-(channel, element) assignment exactly. -/
theorem C5_deduplicated_storage (i : AWGInput) (settings : Settings)
    (hv : ValidInput i) :
    (stored i).Nodup ∧
    (∀ c, c < i.numChans → ∀ e, e < i.numElems →
      (stored i).get? (wfref i c e) = some (content i c e)) ∧
    (∀ c, c < i.numChans → ∀ e, e < i.numElems →
      wfref i c e < (stored i).length) ∧
    decode (encode i settings) = some (i, settings) := by
  refine ⟨List.nodup_dedup _, fun c hc e he => stored_get_wfref i hc he,
    fun c hc e he => ?_, decode_encode i settings hv⟩
  have h := stored_get_wfref i hc he
  obtain ⟨hlt, -⟩ := List.get?_eq_some.mp h
  exact hlt

theorem C5_deduplicated_storage_witness :
    ValidInput sampleInput ∧
    (stored sampleInput).length = 1 ∧
    allContents sampleInput ≠ stored sampleInput ∧
    ((stored sampleInput).Nodup ∧
      (∀ c, c < sampleInput.numChans → ∀ e, e < sampleInput.numElems →
        (stored sampleInput).get? (wfref sampleInput c e)
          = some (content sampleInput c e)) ∧
      (∀ c, c < sampleInput.numChans → ∀ e, e < sampleInput.numElems →
        wfref sampleInput c e < (stored sampleInput).length) ∧
      decode (encode sampleInput sampleSettings)
        = some (sampleInput, sampleSettings)) :=
  ⟨by decide, by decide, by decide,
   C5_deduplicated_storage sampleInput sampleSettings (by decide)⟩

/-- C6: `set_position(i)` with `i` in `[1, N]` behaves differently by run
state: while Running it immediately commands the jump (the position
command is sent and the playing element becomes `i`, whatever the goto
and event-jump wiring of every element is — an override); while Stopped
it only updates the commanded position (run state stays Stopped, nothing
plays) and the effect shows only once `run()` is called. -/
theorem C6_set_position_by_run_state (m : SeqModel) (i : Nat)
    (h1 : 1 ≤ i) (h2 : i ≤ m.elems.length) :
    (m.runState = RunState.running →
      (set_position m i).err = none ∧
      (set_position m i).sent = [Cmd.setPos i] ∧
      (set_position m i).model.position = i ∧
      playing (set_position m i).model = some i ∧
      ∀ f g, playing (set_position (retarget m f g) i).model = some i ∧
        (set_position (retarget m f g) i).model.position = i) ∧
    (m.runState = RunState.stopped →
      (set_position m i).err = none ∧
      (set_position m i).model.position = i ∧
      (set_position m i).model.runState = RunState.stopped ∧
      playing (set_position m i).model = none ∧
      playing (run (set_position m i).model).model = some i) := by
  have hcond : 1 ≤ i ∧ i ≤ m.elems.length := ⟨h1, h2⟩
  constructor
  · intro hr
    refine ⟨?_, ?_, ?_, ?_, ?_⟩
    · simp [set_position, hcond]
    · simp [set_position, hcond]
    · simp [set_position, hcond]
    · simp [set_position, hcond, playing, hr]
    · intro f g
      constructor
      · simp [set_position, retarget, playing, hr, h1, h2]
      · simp [set_position, retarget, h1, h2]
  · intro hs
    refine ⟨?_, ?_, ?_, ?_, ?_⟩
    · simp [set_position, hcond]
    · simp [set_position, hcond]
    · simp [set_position, hcond, hs]
    · simp [set_position, hcond, playing, hs]
    · simp [set_position, hcond, playing, run]

theorem C6_set_position_by_run_state_witness :
    (1 ≤ 3 ∧ 3 ≤ mRunning.elems.length) ∧
    (set_position mRunning 3).sent = [Cmd.setPos 3] ∧
    playing (set_position mRunning 3).model = some 3 ∧
    playing (set_position mStopped 3).model = none ∧
    playing (run (set_position mStopped 3).model).model = some 3 :=
  ⟨by decide,
   ((C6_set_position_by_run_state mRunning 3 (by decide) (by decide)).1
     rfl).2.1,
   ((C6_set_position_by_run_state mRunning 3 (by decide) (by decide)).1
     rfl).2.2.2.1,
   ((C6_set_position_by_run_state mStopped 3 (by decide) (by decide)).2
     rfl).2.2.2.1,
   ((C6_set_position_by_run_state mStopped 3 (by decide) (by decide)).2
     rfl).2.2.2.2⟩

/-- C7: `set_position(i)` with `i` outside `[1, N]` fails with
`invalidPosition`, sends no command to the Device Session, and leaves
the model's state (commanded position and run state) unchanged; the
other Sequencer Model operations are local and cannot fail. -/
theorem C7_set_position_invalid (m : SeqModel) (i : Nat)
    (h : ¬(1 ≤ i ∧ i ≤ m.elems.length)) :
    (set_position m i).err = some SeqError.invalidPosition ∧
    (set_position m i).sent = [] ∧
    (set_position m i).model = m ∧
    (∀ m', (run m').err = none ∧ (stop m').err = none ∧
      (enter_lazy_mode m').err = none) := by
  refine ⟨?_, ?_, ?_, fun m' => ⟨rfl, rfl, rfl⟩⟩ <;> simp [set_position, h]

theorem C7_set_position_invalid_witness :
    ¬(1 ≤ 5 ∧ 5 ≤ mStopped.elems.length) ∧
    (set_position mStopped 5).err = some SeqError.invalidPosition ∧
    (set_position mStopped 5).sent = [] ∧
    (set_position mStopped 5).model = mStopped :=
  ⟨by decide,
   (C7_set_position_invalid mStopped 5 (by decide)).1,
   (C7_set_position_invalid mStopped 5 (by decide)).2.1,
   (C7_set_position_invalid mStopped 5 (by decide)).2.2.1⟩

/-- C8: `enter_lazy_mode()` sets every element's repeat count to `0`
(infinite) and changes nothing else: it cannot fail, run state and
commanded position are unchanged, the table keeps its length, every
other per-element field (waveform assignment, trigger-wait, goto target,
event-jump target) is unchanged for every element, and the run-state
machine still has exactly the two states Stopped and Running. -/
theorem C8_enter_lazy_mode_frame (m : SeqModel) :
    (enter_lazy_mode m).err = none ∧
    (enter_lazy_mode m).model.runState = m.runState ∧
    (enter_lazy_mode m).model.position = m.position ∧
    (enter_lazy_mode m).model.elems.length = m.elems.length ∧
    (∀ k e, m.elems.get? k = some e →
      ∃ e', (enter_lazy_mode m).model.elems.get? k = some e' ∧
        e'.repeatCount = 0 ∧
        e'.waveformRefs = e.waveformRefs ∧
        e'.triggerWait = e.triggerWait ∧
        e'.gotoTarget = e.gotoTarget ∧
        e'.eventJumpTarget = e.eventJumpTarget) ∧
    (∀ s : RunState, s = RunState.stopped ∨ s = RunState.running) := by
  refine ⟨rfl, rfl, rfl, by simp [enter_lazy_mode], ?_, ?_⟩
  · intro k e he
    refine ⟨{ e with repeatCount := 0 }, ?_, rfl, rfl, rfl, rfl, rfl⟩
    simp only [enter_lazy_mode]
    rw [List.get?_eq_getElem?] at he ⊢
    simp [List.getElem?_map, he]
  · intro s
    cases s
    · exact Or.inl rfl
    · exact Or.inr rfl

theorem C8_enter_lazy_mode_frame_witness :
    mStopped.elems.get? 0 = some sampleElem ∧
    (enter_lazy_mode mStopped).model.runState = mStopped.runState ∧
    (∃ e', (enter_lazy_mode mStopped).model.elems.get? 0 = some e' ∧
      e'.repeatCount = 0 ∧
      e'.waveformRefs = sampleElem.waveformRefs ∧
      e'.triggerWait = sampleElem.triggerWait ∧
      e'.gotoTarget = sampleElem.gotoTarget ∧
      e'.eventJumpTarget = sampleElem.eventJumpTarget) :=
  ⟨rfl,
   (C8_enter_lazy_mode_frame mStopped).2.1,
   (C8_enter_lazy_mode_frame mStopped).2.2.2.2.1 0 sampleElem rfl⟩

/-- C9: the waveform validation applied on the container-file path and
on the direct per-waveform list-upload path is the same gate: for every
(samples, marker1, marker2) input, the container path (on the input
wrapping exactly that record) accepts iff the direct-upload path
accepts, and both reject with the same error kind. -/
theorem C9_validation_paths_agree (samples : List ℚ) (m1 m2 : List Nat)
    (name : String) :
    ((send_waveform_to_list samples m1 m2 name).isOk
      = (make_and_save_awg_file (singleInput samples m1 m2) []).isOk) ∧
    (∀ e, send_waveform_to_list samples m1 m2 name = Except.error e ↔
      make_and_save_awg_file (singleInput samples m1 m2) []
        = Except.error e) := by
  have hAll : allContents (singleInput samples m1 m2) = [(samples, m1, m2)] := rfl
  have hraw : rawElems (singleInput samples m1 m2) = [⟨1, 0, 0, 0⟩] := rfl
  have hcond : ∀ el ∈ ([⟨1, 0, 0, 0⟩] : List RawElem),
      targetOK ([(⟨1, 0, 0, 0⟩ : RawElem)]).length el.gotoTarget ∧
      targetOK ([(⟨1, 0, 0, 0⟩ : RawElem)]).length el.eventJumpTarget := by
    decide
  have hbt : buildSequenceTable (rawElems (singleInput samples m1 m2))
      = Except.ok ⟨rawElems (singleInput samples m1 m2)⟩ := by
    rw [hraw, buildSequenceTable, if_pos hcond]
  rcases hval : validateWaveform samples m1 m2 with e | r
  · have hm : make_and_save_awg_file (singleInput samples m1 m2) []
        = Except.error e := by
      rw [make_and_save_awg_file, hAll]
      simp [validateRecords, hval]
    have hs : send_waveform_to_list samples m1 m2 name = Except.error e := by
      simp [send_waveform_to_list, hval]
    constructor
    · rw [hm, hs]
      rfl
    · intro e'
      rw [hm, hs]
      simp
  · have hm : make_and_save_awg_file (singleInput samples m1 m2) []
        = Except.ok (encode (singleInput samples m1 m2) []) := by
      rw [make_and_save_awg_file, hAll]
      simp [validateRecords, hval, hbt]
    have hs : send_waveform_to_list samples m1 m2 name
        = Except.ok (Cmd.sendWaveform name r) := by
      simp [send_waveform_to_list, hval]
    constructor
    · rw [hm, hs]
      rfl
    · intro e'
      rw [hm, hs]
      simp

/-- C10: on the per-waveform upload path, a per-element operation
addressed to an index outside `[1, current sequence length]` is not
retained (the device state is unchanged), so after any script starting
from the cleared device every populated element index lies within
`[1, current sequence length]`; in particular, if the sequence length is
never set, nothing is retained at all. -/
theorem C10_upload_length_invariant (ops : List UploadOp) :
    (∀ s index eop, ¬(1 ≤ index ∧ index ≤ s.seqLength) →
      applyUploadOp s (UploadOp.elemOp index eop) = s) ∧
    (∀ p ∈ (runUpload ops).populated,
      1 ≤ p.1 ∧ p.1 ≤ (runUpload ops).seqLength) ∧
    ((∀ op ∈ ops, ∀ n, op ≠ UploadOp.setSeqLength n) →
      (runUpload ops).populated = []) := by
  refine ⟨?_, ?_, ?_⟩
  · intro s index eop h
    simp only [applyUploadOp]
    rw [if_neg h]
  · exact devInv_fold ops { seqLength := 0, populated := [] } fun p hp => by cases hp
  · intro hops
    exact noLen_fold ops { seqLength := 0, populated := [] } rfl rfl hops

theorem C10_upload_length_invariant_witness :
    ((2, ElemOp.setLoopcnt 5) ∈ (runUpload sampleOps).populated ∧
      1 ≤ ((2 : Nat), ElemOp.setLoopcnt 5).1 ∧
      ((2 : Nat), ElemOp.setLoopcnt 5).1 ≤ (runUpload sampleOps).seqLength) ∧
    ((∀ op ∈ noLenOps, ∀ n, op ≠ UploadOp.setSeqLength n) ∧
      (runUpload noLenOps).populated = []) ∧
    (¬(1 ≤ 9 ∧ 9 ≤ (runUpload sampleOps).seqLength) ∧
      applyUploadOp (runUpload sampleOps)
        (UploadOp.elemOp 9 (ElemOp.setTrigWait 1)) = runUpload sampleOps) :=
  ⟨⟨by decide,
    (C10_upload_length_invariant sampleOps).2.1
      (2, ElemOp.setLoopcnt 5) (by decide)⟩,
   ⟨by simp [noLenOps], (C10_upload_length_invariant noLenOps).2.2 (by simp [noLenOps])⟩,
   ⟨by decide,
    (C10_upload_length_invariant sampleOps).1
      (runUpload sampleOps) 9 (ElemOp.setTrigWait 1) (by decide)⟩⟩

end AWG
